import Mathlib

/-!
Verification of the medspacy ConText core (scope resolution and modifier
assignment).  The algorithmic implementation (`medspacy.context`) is not part
of the provided sources, which contain only its documentation, notebooks and
changelog; every definition below is therefore modelled from the design
specification, as its doc comment records.
-/

namespace MedspacyContext

/-- Modelled from the spec: the five direction tags of a `ConTextRule`
(spec §3, `ModifierRule`); the implementation `medspacy.context.ConTextRule`
is missing from the sources. -/
inductive Direction
  | forward
  | backward
  | bidirectional
  | terminate
  | pseudo
deriving DecidableEq

/-- Modelled from the spec: a span is a pair of token indices
`(start, end)`, half-open (spec §3).  The field `stop` stands for the
spec's `end`, which is a keyword. -/
structure Span where
  start : Nat
  stop : Nat
deriving DecidableEq

/-- Modelled from the spec: an immutable modifier rule (spec §3):
category tag, direction, optional `max_scope`, optional allow list and an
exclude list of target categories. -/
structure ModifierRule where
  category : String
  direction : Direction
  max_scope : Option Nat
  allowed_target_categories : Option (List String)
  excluded_target_categories : List String
deriving DecidableEq

/-- Modelled from the spec: a matched cue span bound to one rule
(spec §3, `Modifier`). -/
structure Modifier where
  span : Span
  rule : ModifierRule
deriving DecidableEq

/-- Modelled from the spec: a target entity, a span with a category label
(spec §3). -/
structure Entity where
  span : Span
  category : String
deriving DecidableEq

/-- Modelled from the spec: a directional scope window, the backward-facing
part (ending at the cue's start) and the forward-facing part (starting at
the cue's end); a `FORWARD` scope has only a right part, a `BACKWARD` scope
only a left part, a `BIDIRECTIONAL` scope both (spec §4.2). -/
structure Scope where
  left : Option Span
  right : Option Span
deriving DecidableEq

/-- Modelled from the spec: two spans overlap when they share a token
index (spec §4.3, first skip condition). -/
def spansOverlap (a b : Span) : Bool :=
  decide (a.start < b.stop) && decide (b.start < a.stop)

/-- Modelled from the spec: `a` is fully contained in `b` (containment,
not mere overlap; spec §4.3, second skip condition). -/
def Span.subrangeOf (a b : Span) : Bool :=
  decide (b.start ≤ a.start) && decide (a.stop ≤ b.stop)

/-- Modelled from the spec: the right endpoint of a forward-facing naive
scope, `min(sentence.end, cue.end + max_scope or sentence.end)`
(spec §4.2 step 1). -/
def fwdStop (sent cue : Span) : Option Nat → Nat
  | none => sent.stop
  | some k => min sent.stop (cue.stop + k)

/-- Modelled from the spec: the left endpoint of a backward-facing naive
scope, `max(sentence.start, cue.start − max_scope or sentence.start)`
(spec §4.2 step 1). -/
def bwdStart (sent cue : Span) : Option Nat → Nat
  | none => sent.start
  | some k => max sent.start (cue.start - k)

/-- Modelled from the spec: the naive directional scope of a modifier
(spec §4.2 step 1): `FORWARD` reaches from the cue's end toward the
sentence end, `BACKWARD` from the sentence start toward the cue's start,
`BIDIRECTIONAL` covers the sentence minus the cue's own span, with a
present `max_scope` bounding the reach on either side (spec §8
Scenario 3); `PSEUDO` and `TERMINATE` modifiers get no naive scope. -/
def naiveScope (sent : Span) (m : Modifier) : Scope :=
  match m.rule.direction with
  | .forward => ⟨none, some ⟨m.span.stop, fwdStop sent m.span m.rule.max_scope⟩⟩
  | .backward => ⟨some ⟨bwdStart sent m.span m.rule.max_scope, m.span.start⟩, none⟩
  | .bidirectional =>
      ⟨some ⟨bwdStart sent m.span m.rule.max_scope, m.span.start⟩,
       some ⟨m.span.stop, fwdStop sent m.span m.rule.max_scope⟩⟩
  | .terminate => ⟨none, none⟩
  | .pseudo => ⟨none, none⟩

/-- Modelled from the spec: a terminator clips a forward-facing scope
interval whose left edge lies before the terminator and which would extend
across it, moving the right edge to the terminator's start (spec §4.2
step 2). -/
def clipRight (iv t : Span) : Span :=
  if iv.start < t.start ∧ t.start < iv.stop then ⟨iv.start, t.start⟩ else iv

/-- Modelled from the spec: a terminator clips a backward-facing scope
interval that ends after the terminator and extends across it, moving the
left edge to the terminator's end (spec §4.2 step 2). -/
def clipLeft (iv t : Span) : Span :=
  if t.stop < iv.stop ∧ iv.start < t.stop then ⟨t.stop, iv.stop⟩ else iv

/-- Modelled from the spec: the resolved scope after the truncation pass
(spec §4.2 step 2): each part of the naive scope is clipped, on the side
facing the terminators only, by every `TERMINATE` span of the sentence. -/
def resolvedScope (sent : Span) (terms : List Span) (m : Modifier) : Scope :=
  let n := naiveScope sent m
  ⟨n.left.map (fun iv => terms.foldl clipLeft iv),
   n.right.map (fun iv => terms.foldl clipRight iv)⟩

/-- Modelled from the spec: a scope fully contains a target span when one
of its parts does (spec §4.3). -/
def scopeContains (sc : Scope) (s : Span) : Bool :=
  (match sc.left with
   | some iv => Span.subrangeOf s iv
   | none => false) ||
  (match sc.right with
   | some iv => Span.subrangeOf s iv
   | none => false)

/-- Modelled from the spec: a modifier is resolved (participates in
assignment) iff its direction is neither `PSEUDO` nor `TERMINATE`
(spec §4.2, §4.3). -/
def isResolved (m : Modifier) : Bool :=
  !(decide (m.rule.direction = Direction.pseudo)) &&
  !(decide (m.rule.direction = Direction.terminate))

/-- Modelled from the spec: the allow-list filter — when
`allowed_target_categories` is present, only member categories pass
(spec §4.3, third skip condition). -/
def allowedOk (r : ModifierRule) (cat : String) : Bool :=
  match r.allowed_target_categories with
  | none => true
  | some cs => cs.contains cat

/-- Modelled from the spec: the exclude-list filter — a category in
`excluded_target_categories` never passes (spec §4.3, fourth skip
condition). -/
def excludedOk (r : ModifierRule) (cat : String) : Bool :=
  !(r.excluded_target_categories.contains cat)

/-- Modelled from the spec: the Assignment Engine's per-pair decision
(spec §4.3): a resolved modifier attaches to an entity of the same
sentence unless a skip condition fires — cue/target overlap, scope not
fully containing the target, allow-list miss, or exclude-list hit. -/
def attaches (sent : Span) (terms : List Span) (m : Modifier) (e : Entity) : Bool :=
  isResolved m &&
  !(spansOverlap e.span m.span) &&
  scopeContains (resolvedScope sent terms m) e.span &&
  allowedOk m.rule e.category &&
  excludedOk m.rule e.category

/-- Modelled from the spec: the cue spans of the `TERMINATE` modifiers of
a sentence, the only spans that truncate scope (spec §4.2 steps 2–3). -/
def terminatorSpans (mods : List Modifier) : List Span :=
  (mods.filter (fun m => decide (m.rule.direction = Direction.terminate))).map Modifier.span

/-- Modelled from the spec: the edge list of one sentence (spec §4.3):
for each entity, for each modifier in order, record the edge
`(m, e, m.rule.category)` when the modifier attaches. -/
def sentenceEdges (sent : Span) (mods : List Modifier) (ents : List Entity) :
    List (Modifier × Entity × String) :=
  ents.flatMap (fun e =>
    (mods.filter (fun m => attaches sent (terminatorSpans mods) m e)).map
      (fun m => (m, e, m.rule.category)))

/-- Modelled from the spec: the per-document input of the core
(spec §6): sentence boundaries, modifier matches and target matches. -/
structure Document where
  sentences : List Span
  modifiers : List Modifier
  entities : List Entity
deriving DecidableEq

/-- Modelled from the spec: the error taxonomy of the core (spec §7). -/
inductive ContextError
  | ruleValidationError
  | spanContractViolation
deriving DecidableEq

/-- Modelled from the spec: the upstream span contract (spec §7):
`start < end` and the span lies inside a sentence range. -/
def spanValid (sents : List Span) (s : Span) : Bool :=
  decide (s.start < s.stop) && sents.any (fun snt => Span.subrangeOf s snt)

/-- Modelled from the spec: a document satisfies the span contract when
every modifier and entity span does (spec §7). -/
def docValid (d : Document) : Bool :=
  d.modifiers.all (fun m => spanValid d.sentences m.span) &&
  d.entities.all (fun e => spanValid d.sentences e.span)

/-- Modelled from the spec: the modifiers whose cue spans fall in a
sentence (spec §4.2 input). -/
def sentenceModifiers (snt : Span) (mods : List Modifier) : List Modifier :=
  mods.filter (fun m => Span.subrangeOf m.span snt)

/-- Modelled from the spec: the entities of a sentence (spec §4.3
input). -/
def sentenceEntities (snt : Span) (ents : List Entity) : List Entity :=
  ents.filter (fun e => Span.subrangeOf e.span snt)

/-- Modelled from the spec: the result graph (spec §4.4): the edge list
and the resolved scope of every non-`PSEUDO`/`TERMINATE` modifier. -/
structure ResultGraph where
  edges : List (Modifier × Entity × String)
  scopes : List (Modifier × Scope)
deriving DecidableEq

/-- Modelled from the spec: graph construction, per sentence: resolve
scopes, then assign (spec §2 control flow, §4.4). -/
def buildGraph (d : Document) : ResultGraph :=
  ⟨d.sentences.flatMap (fun snt =>
      sentenceEdges snt (sentenceModifiers snt d.modifiers) (sentenceEntities snt d.entities)),
   d.sentences.flatMap (fun snt =>
      let mods := sentenceModifiers snt d.modifiers
      (mods.filter isResolved).map (fun m => (m, resolvedScope snt (terminatorSpans mods) m)))⟩

/-- Modelled from the spec: `resolve(document) -> ResultGraph`, a pure
function that rejects a document breaking the span contract with
`SpanContractViolation` and otherwise returns the fully resolved graph
(spec §6, §7); the implementation `ConText.__call__` is missing from the
sources. -/
def resolve (d : Document) : Except ContextError ResultGraph :=
  if docValid d then Except.ok (buildGraph d) else Except.error ContextError.spanContractViolation

/-- Modelled from the spec: a raw rule as supplied to the Rule Set loader,
its direction still a string tag and its `max_scope` a raw integer
(spec §4.1); the implementation `ConTextRule.from_dict` is missing from
the sources. -/
structure RuleSpec where
  category : String
  direction : String
  max_scope : Option Int
  allowed_target_categories : Option (List String)
  excluded_target_categories : List String
deriving DecidableEq

/-- Modelled from the spec: parsing of a direction tag; an unknown tag
yields `none` (spec §4.1). -/
def parseDirection (s : String) : Option Direction :=
  if s = "FORWARD" then some Direction.forward
  else if s = "BACKWARD" then some Direction.backward
  else if s = "BIDIRECTIONAL" then some Direction.bidirectional
  else if s = "TERMINATE" then some Direction.terminate
  else if s = "PSEUDO" then some Direction.pseudo
  else none

/-- Modelled from the spec: a non-positive `max_scope` is malformed
(spec §4.1). -/
def badScope : Option Int → Bool
  | none => false
  | some k => decide (k ≤ 0)

/-- Modelled from the spec: the allow and exclude sets of a rule must not
intersect (spec §4.1). -/
def conflictingCats (allowed : Option (List String)) (excluded : List String) : Bool :=
  match allowed with
  | none => false
  | some cs => cs.any (fun c => excluded.contains c)

/-- Modelled from the spec: validation of one rule at Rule Set
construction (spec §4.1): fails with `RuleValidationError` on an unknown
direction tag, a non-positive `max_scope`, or conflicting allow/exclude
sets. -/
def validateRule (r : RuleSpec) : Except ContextError ModifierRule :=
  match parseDirection r.direction with
  | none => Except.error ContextError.ruleValidationError
  | some dir =>
      if badScope r.max_scope then Except.error ContextError.ruleValidationError
      else if conflictingCats r.allowed_target_categories r.excluded_target_categories then
        Except.error ContextError.ruleValidationError
      else Except.ok
        ⟨r.category, dir, r.max_scope.map Int.toNat,
         r.allowed_target_categories, r.excluded_target_categories⟩

/-- Modelled from the spec: a validated, immutable rule collection
(spec §4.1). -/
structure RuleSet where
  rules : List ModifierRule
deriving DecidableEq

/-- Modelled from the spec: `load(rules)` registers every rule that
validates and collects one error per rule that does not; a failing rule
is fatal only to its own registration (spec §4.1, §7). -/
def load (rs : List RuleSpec) : RuleSet × List ContextError :=
  ⟨⟨rs.filterMap (fun r => (validateRule r).toOption)⟩,
   rs.filterMap (fun r =>
     match validateRule r with
     | Except.error e => some e
     | Except.ok _ => none)⟩

/-- Modelled from the spec: adding rules produces a new Rule Set by
copy-on-append; the existing collection is not mutated (spec §4.1, §9). -/
def RuleSet.add (rs : RuleSet) (more : List ModifierRule) : RuleSet :=
  ⟨rs.rules ++ more⟩

/-! Concrete scenario data from spec §8, used to instantiate the theorems. -/

/-- Scenario 1 and 2 rule: forward negation, unbounded scope. -/
def negationRule : ModifierRule :=
  ⟨"NEGATED_EXISTENCE", Direction.forward, none, none, []⟩

/-- Scenario 1 and 2 modifier: cue at tokens `[0,3)`. -/
def negMod : Modifier := ⟨⟨0, 3⟩, negationRule⟩

/-- Scenario 1 target: `pneumonia` at `[3,4)`. -/
def pneumoniaEnt : Entity := ⟨⟨3, 4⟩, "PROBLEM"⟩

/-- Scenario 2 terminator cue `but` at `[4,5)`. -/
def butMod : Modifier := ⟨⟨4, 5⟩, ⟨"CONJ", Direction.terminate, none, none, []⟩⟩

/-- Scenario 3 rule: bidirectional family history, `max_scope = 5`. -/
def famHistRule : ModifierRule :=
  ⟨"FAMILY_HISTORY", Direction.bidirectional, some 5, none, []⟩

/-- Scenario 1 document: one sentence of five tokens, one negation
modifier, one target. -/
def scenarioOneDoc : Document := ⟨[⟨0, 5⟩], [negMod], [pneumoniaEnt]⟩

/-! Helper lemmas about the two clipping operations and their folds. -/

theorem clipRight_start (iv t : Span) : (clipRight iv t).start = iv.start := by
  unfold clipRight
  split <;> rfl

theorem clipRight_stop_le (iv t : Span) : (clipRight iv t).stop ≤ iv.stop := by
  unfold clipRight
  split
  · next h => exact Nat.le_of_lt h.2
  · exact Nat.le_refl _

theorem clipRight_stop_le_of_lt (iv t : Span) (h : iv.start < t.start) :
    (clipRight iv t).stop ≤ t.start := by
  unfold clipRight
  split
  · exact Nat.le_refl _
  · next hc => omega

theorem clipRight_eq_self_of_le (iv t : Span) (h : t.start ≤ iv.start) :
    clipRight iv t = iv := by
  unfold clipRight
  split
  · next hc => omega
  · rfl

theorem clipLeft_stop (iv t : Span) : (clipLeft iv t).stop = iv.stop := by
  unfold clipLeft
  split <;> rfl

theorem clipLeft_start_ge (iv t : Span) : iv.start ≤ (clipLeft iv t).start := by
  unfold clipLeft
  split
  · next h => exact Nat.le_of_lt h.2
  · exact Nat.le_refl _

theorem clipLeft_start_ge_of_lt (iv t : Span) (h : t.stop < iv.stop) :
    t.stop ≤ (clipLeft iv t).start := by
  unfold clipLeft
  split
  · exact Nat.le_refl _
  · next hc => omega

theorem clipLeft_eq_self_of_le (iv t : Span) (h : iv.stop ≤ t.stop) :
    clipLeft iv t = iv := by
  unfold clipLeft
  split
  · next hc => omega
  · rfl

theorem foldl_clipRight_start (l : List Span) (iv : Span) :
    (l.foldl clipRight iv).start = iv.start := by
  induction l generalizing iv with
  | nil => rfl
  | cons t l ih => rw [List.foldl_cons, ih, clipRight_start]

theorem foldl_clipRight_stop_le (l : List Span) (iv : Span) :
    (l.foldl clipRight iv).stop ≤ iv.stop := by
  induction l generalizing iv with
  | nil => exact Nat.le_refl _
  | cons t l ih =>
    rw [List.foldl_cons]
    exact Nat.le_trans (ih (clipRight iv t)) (clipRight_stop_le iv t)

theorem foldl_clipRight_stop_le_of_mem (l : List Span) (t : Span) :
    t ∈ l → ∀ iv : Span, iv.start < t.start → (l.foldl clipRight iv).stop ≤ t.start := by
  induction l with
  | nil => intro hmem; cases hmem
  | cons a l ih =>
    intro hmem iv h
    rw [List.foldl_cons]
    rcases List.mem_cons.mp hmem with h1 | h1
    · subst h1
      exact Nat.le_trans (foldl_clipRight_stop_le l (clipRight iv t))
        (clipRight_stop_le_of_lt iv t h)
    · exact ih h1 (clipRight iv a) (by rw [clipRight_start]; exact h)

theorem foldl_clipLeft_stop (l : List Span) (iv : Span) :
    (l.foldl clipLeft iv).stop = iv.stop := by
  induction l generalizing iv with
  | nil => rfl
  | cons t l ih => rw [List.foldl_cons, ih, clipLeft_stop]

theorem foldl_clipLeft_start_ge (l : List Span) (iv : Span) :
    iv.start ≤ (l.foldl clipLeft iv).start := by
  induction l generalizing iv with
  | nil => exact Nat.le_refl _
  | cons t l ih =>
    rw [List.foldl_cons]
    exact Nat.le_trans (clipLeft_start_ge iv t) (ih (clipLeft iv t))

theorem foldl_clipLeft_start_ge_of_mem (l : List Span) (t : Span) :
    t ∈ l → ∀ iv : Span, t.stop < iv.stop → t.stop ≤ (l.foldl clipLeft iv).start := by
  induction l with
  | nil => intro hmem; cases hmem
  | cons a l ih =>
    intro hmem iv h
    rw [List.foldl_cons]
    rcases List.mem_cons.mp hmem with h1 | h1
    · subst h1
      exact Nat.le_trans (clipLeft_start_ge_of_lt iv t h)
        (foldl_clipLeft_start_ge l (clipLeft iv t))
    · exact ih h1 (clipLeft iv a) (by rw [clipLeft_stop]; exact h)

/-- Claim C1: for every entity `e` and every resolved (non-PSEUDO,
non-TERMINATE) modifier `m` of the same sentence, the Assignment Engine
records the edge `(m, e, m.rule.category)` iff `e`'s span shares no token
with `m`'s cue span, `m`'s resolved scope fully contains `e`'s span, the
allow list (when present) has `e.category` as a member, and `e.category`
is not a member of the exclude list. -/
theorem assignment_edge_iff (sent : Span) (mods : List Modifier) (ents : List Entity)
    (m : Modifier) (e : Entity) (hm : m ∈ mods) (he : e ∈ ents)
    (hres : isResolved m = true) :
    (m, e, m.rule.category) ∈ sentenceEdges sent mods ents ↔
      (spansOverlap e.span m.span = false ∧
       scopeContains (resolvedScope sent (terminatorSpans mods) m) e.span = true ∧
       allowedOk m.rule e.category = true ∧
       excludedOk m.rule e.category = true) := by
  unfold sentenceEdges
  rw [List.mem_flatMap]
  constructor
  · rintro ⟨e', he', hmm⟩
    rw [List.mem_map] at hmm
    rcases hmm with ⟨m', hm', heq⟩
    rw [List.mem_filter] at hm'
    have hm'eq : m' = m := congrArg Prod.fst heq
    have he'eq : e' = e := congrArg (fun p => p.2.1) heq
    subst hm'eq
    subst he'eq
    have hatt := hm'.2
    simp only [attaches, Bool.and_eq_true, Bool.not_eq_true'] at hatt
    exact ⟨hatt.1.1.1.2, hatt.1.1.2, hatt.1.2, hatt.2⟩
  · rintro ⟨h1, h2, h3, h4⟩
    refine ⟨e, he, ?_⟩
    rw [List.mem_map]
    refine ⟨m, ?_, rfl⟩
    rw [List.mem_filter]
    refine ⟨hm, ?_⟩
    simp only [attaches, Bool.and_eq_true, Bool.not_eq_true']
    exact ⟨⟨⟨⟨hres, h1⟩, h2⟩, h3⟩, h4⟩

/-- Concrete instantiation of `assignment_edge_iff` on spec §8
Scenario 1: the forward negation attaches to `pneumonia`. -/
theorem assignment_edge_iff_witness :
    (negMod, pneumoniaEnt, "NEGATED_EXISTENCE") ∈
      sentenceEdges ⟨0, 5⟩ [negMod] [pneumoniaEnt] :=
  (assignment_edge_iff ⟨0, 5⟩ [negMod] [pneumoniaEnt] negMod pneumoniaEnt
      (by decide) (by decide) (by decide)).mpr
    ⟨by decide, by decide, by decide, by decide⟩

/-- Claim C2: the naive scope before truncation is, for `FORWARD`,
`[cue.end, min(sentence.end, cue.end + max_scope))` with `sentence.end`
when `max_scope` is absent; for `BACKWARD`,
`[max(sentence.start, cue.start − max_scope), cue.start)` with
`sentence.start` when absent; for `BIDIRECTIONAL`, the sentence minus the
cue's own span, a present `max_scope` bounding the reach (Scenario 3:
`stroke` within 5 tokens is attached, a target 10 tokens away is not);
and the naive scope is always a sub-range of the cue's sentence. -/
theorem naive_scope_spec (sent : Span) (m : Modifier)
    (hin : Span.subrangeOf m.span sent = true) (hord : m.span.start ≤ m.span.stop) :
    (m.rule.direction = Direction.forward →
       naiveScope sent m =
         ⟨none, some ⟨m.span.stop,
            match m.rule.max_scope with
            | none => sent.stop
            | some k => min sent.stop (m.span.stop + k)⟩⟩) ∧
    (m.rule.direction = Direction.backward →
       naiveScope sent m =
         ⟨some ⟨(match m.rule.max_scope with
                 | none => sent.start
                 | some k => max sent.start (m.span.start - k)), m.span.start⟩, none⟩) ∧
    (m.rule.direction = Direction.bidirectional → m.rule.max_scope = none →
       naiveScope sent m =
         ⟨some ⟨sent.start, m.span.start⟩, some ⟨m.span.stop, sent.stop⟩⟩) ∧
    (∀ iv : Span,
       (naiveScope sent m).left = some iv ∨ (naiveScope sent m).right = some iv →
       sent.start ≤ iv.start ∧ iv.stop ≤ sent.stop) ∧
    attaches ⟨0, 6⟩ [] ⟨⟨3, 5⟩, famHistRule⟩ ⟨⟨0, 1⟩, "PROBLEM"⟩ = true ∧
    attaches ⟨0, 16⟩ [] ⟨⟨13, 15⟩, famHistRule⟩ ⟨⟨3, 4⟩, "PROBLEM"⟩ = false := by
  have hin' : sent.start ≤ m.span.start ∧ m.span.stop ≤ sent.stop := by
    simpa [Span.subrangeOf, Bool.and_eq_true, decide_eq_true_eq] using hin
  refine ⟨?_, ?_, ?_, ?_, by decide, by decide⟩
  · intro h
    unfold naiveScope
    rw [h]
    rcases hms : m.rule.max_scope with _ | k <;> simp [fwdStop, hms]
  · intro h
    unfold naiveScope
    rw [h]
    rcases hms : m.rule.max_scope with _ | k <;> simp [bwdStart, hms]
  · intro h hms
    unfold naiveScope
    rw [h]
    simp [fwdStop, bwdStart, hms]
  · intro iv hiv
    obtain ⟨h1, h2⟩ := hin'
    obtain ⟨ivs, ivt⟩ := iv
    cases hd : m.rule.direction <;>
      rcases hms : m.rule.max_scope with _ | k <;>
      rcases hiv with hl | hl <;>
      simp [naiveScope, hd, hms, fwdStop, bwdStart, Span.mk.injEq] at hl ⊢ <;>
      omega

/-- Concrete instantiation of `naive_scope_spec`: the Scenario 1 forward
negation's naive scope runs from the cue's end to the sentence end. -/
theorem naive_scope_spec_witness :
    naiveScope ⟨0, 5⟩ negMod = ⟨none, some ⟨3, 5⟩⟩ :=
  (naive_scope_spec ⟨0, 5⟩ negMod (by decide) (by decide)).1 rfl

/-- Claim C3: a `TERMINATE` span clips every `FORWARD` scope that starts
before it and would extend across it to end at the terminator's start,
and every `BACKWARD` scope that ends after it to start at the
terminator's end; a `BIDIRECTIONAL` scope is clipped only on the side
facing the terminator; a terminator never clips a modifier that starts
after it in the direction away from it; and in Scenario 2 the forward
negation's resolved scope ends at token 4, so `pna` is attached and
`fever` is not. -/
theorem terminator_truncation :
    (∀ (sent : Span) (terms : List Span) (m : Modifier) (t iv : Span),
       t ∈ terms → m.rule.direction = Direction.forward →
       (naiveScope sent m).right = some iv →
       iv.start < t.start → t.start < iv.stop →
       ∀ iv' : Span, (resolvedScope sent terms m).right = some iv' →
         iv'.stop ≤ t.start) ∧
    (∀ (sent : Span) (terms : List Span) (m : Modifier) (t iv : Span),
       t ∈ terms → m.rule.direction = Direction.backward →
       (naiveScope sent m).left = some iv →
       t.stop < iv.stop → iv.start < t.stop →
       ∀ iv' : Span, (resolvedScope sent terms m).left = some iv' →
         t.stop ≤ iv'.start) ∧
    (∀ (sent : Span) (m : Modifier) (t : Span),
       m.rule.direction = Direction.bidirectional →
       m.span.start ≤ m.span.stop → t.start ≤ t.stop →
       m.span.stop ≤ t.start →
       (resolvedScope sent [t] m).left = (naiveScope sent m).left) ∧
    (∀ (sent : Span) (m : Modifier) (t : Span),
       m.rule.direction = Direction.bidirectional →
       m.span.start ≤ m.span.stop → t.start ≤ t.stop →
       t.stop ≤ m.span.start →
       (resolvedScope sent [t] m).right = (naiveScope sent m).right) ∧
    (∀ (sent : Span) (m : Modifier) (t iv : Span),
       (naiveScope sent m).right = some iv → t.start ≤ iv.start →
       (resolvedScope sent [t] m).right = some iv) ∧
    (∀ (sent : Span) (m : Modifier) (t iv : Span),
       (naiveScope sent m).left = some iv → iv.stop ≤ t.stop →
       (resolvedScope sent [t] m).left = some iv) ∧
    (resolvedScope ⟨0, 9⟩ [⟨4, 5⟩] negMod).right = some ⟨3, 4⟩ ∧
    attaches ⟨0, 9⟩ [⟨4, 5⟩] negMod ⟨⟨3, 4⟩, "PROBLEM"⟩ = true ∧
    attaches ⟨0, 9⟩ [⟨4, 5⟩] negMod ⟨⟨7, 8⟩, "PROBLEM"⟩ = false := by
  refine ⟨?_, ?_, ?_, ?_, ?_, ?_, by decide, by decide, by decide⟩
  · intro sent terms m t iv hmem hdir hnr hlt hcross iv' hres
    simp only [resolvedScope, hnr, Option.map_some'] at hres
    rw [Option.some.injEq] at hres
    subst hres
    exact foldl_clipRight_stop_le_of_mem terms t hmem iv hlt
  · intro sent terms m t iv hmem hdir hnl hlt hcross iv' hres
    simp only [resolvedScope, hnl, Option.map_some'] at hres
    rw [Option.some.injEq] at hres
    subst hres
    exact foldl_clipLeft_start_ge_of_mem terms t hmem iv hlt
  · intro sent m t hdir hcue ht hside
    simp only [resolvedScope, naiveScope, hdir, Option.map_some', List.foldl_cons,
      List.foldl_nil]
    rw [clipLeft_eq_self_of_le]
    dsimp only
    omega
  · intro sent m t hdir hcue ht hside
    simp only [resolvedScope, naiveScope, hdir, Option.map_some', List.foldl_cons,
      List.foldl_nil]
    rw [clipRight_eq_self_of_le]
    dsimp only
    omega
  · intro sent m t iv hnr hge
    simp only [resolvedScope, hnr, Option.map_some', List.foldl_cons, List.foldl_nil]
    rw [clipRight_eq_self_of_le iv t hge]
  · intro sent m t iv hnl hle
    simp only [resolvedScope, hnl, Option.map_some', List.foldl_cons, List.foldl_nil]
    rw [clipLeft_eq_self_of_le iv t hle]

/-- Concrete instantiation of `terminator_truncation` on Scenario 2: the
`but` terminator at `[4,5)` bounds the forward negation's scope by
token 4. -/
theorem terminator_truncation_witness :
    (Span.mk 3 4).stop ≤ (Span.mk 4 5).start :=
  terminator_truncation.1 ⟨0, 9⟩ [⟨4, 5⟩] negMod ⟨4, 5⟩ ⟨3, 9⟩
    (by decide) rfl rfl (by decide) (by decide) ⟨3, 4⟩ (by decide)

/-- Claim C4: only `TERMINATE`-tagged rules truncate scope — inserting or
removing a `FORWARD`, `BACKWARD` or `BIDIRECTIONAL` modifier anywhere in
the sentence's modifier list (whatever its category) leaves every
modifier's resolved scope identical. -/
theorem non_terminate_no_truncation (sent : Span) (l1 l2 : List Modifier)
    (m0 m : Modifier)
    (h : m0.rule.direction = Direction.forward ∨
         m0.rule.direction = Direction.backward ∨
         m0.rule.direction = Direction.bidirectional) :
    resolvedScope sent (terminatorSpans (l1 ++ m0 :: l2)) m =
      resolvedScope sent (terminatorSpans (l1 ++ l2)) m := by
  have hne : decide (m0.rule.direction = Direction.terminate) = false := by
    rcases h with h | h | h <;> simp [h]
  unfold terminatorSpans
  rw [List.filter_append, List.filter_append, List.filter_cons, hne]
  simp

/-- Concrete instantiation of `non_terminate_no_truncation`: adding a
bidirectional family-history modifier does not change the Scenario 2
negation's resolved scope. -/
theorem non_terminate_no_truncation_witness :
    resolvedScope ⟨0, 9⟩ (terminatorSpans [negMod, ⟨⟨5, 7⟩, famHistRule⟩, butMod]) negMod =
      resolvedScope ⟨0, 9⟩ (terminatorSpans [negMod, butMod]) negMod :=
  non_terminate_no_truncation ⟨0, 9⟩ [negMod] [butMod] ⟨⟨5, 7⟩, famHistRule⟩ negMod
    (Or.inr (Or.inr rfl))

/-- Interval inclusion between spans, read as token ranges. -/
def spanSub (a b : Span) : Prop := b.start ≤ a.start ∧ a.stop ≤ b.stop

/-- Scope inclusion, part by part: every part of `a` is an interval
inside the corresponding part of `b`. -/
def scopeSub (a b : Scope) : Prop :=
  (∀ iv : Span, a.left = some iv → ∃ jv : Span, b.left = some jv ∧ spanSub iv jv) ∧
  (∀ iv : Span, a.right = some iv → ∃ jv : Span, b.right = some jv ∧ spanSub iv jv)

/-- Every part of the scope is empty (`start == end` or wider). -/
def scopeEmpty (sc : Scope) : Prop :=
  (∀ iv : Span, sc.left = some iv → iv.stop ≤ iv.start) ∧
  (∀ iv : Span, sc.right = some iv → iv.stop ≤ iv.start)

theorem subrangeOf_eq_false_of_empty (a iv : Span) (hiv : iv.stop ≤ iv.start)
    (ha : a.start < a.stop) : Span.subrangeOf a iv = false := by
  rw [Bool.eq_false_iff]
  intro hcon
  simp only [Span.subrangeOf, Bool.and_eq_true, decide_eq_true_eq] at hcon
  omega

theorem scopeContains_eq_false_of_empty (sc : Scope) (s : Span)
    (hsc : scopeEmpty sc) (hs : s.start < s.stop) : scopeContains sc s = false := by
  obtain ⟨hl, hr⟩ := hsc
  unfold scopeContains
  cases hcl : sc.left <;> cases hcr : sc.right <;>
    simp only [Bool.or_eq_false_iff] <;>
    constructor <;>
    first
      | trivial
      | exact subrangeOf_eq_false_of_empty s _ (hl _ hcl) hs
      | exact subrangeOf_eq_false_of_empty s _ (hr _ hcr) hs

/-- Claim C5: for every non-PSEUDO, non-TERMINATE modifier, the resolved
scope after the truncation pass is a subset of (or equal to) the naive
scope, and a fully clipped modifier — one whose scope parts are all empty
(`start == end`) — attaches to no target with a proper span.  (The
modifier's own cue span and rule are untouched: `resolvedScope` computes
a fresh scope from them and cannot alter them.) -/
theorem truncation_monotonicity :
    (∀ (sent : Span) (terms : List Span) (m : Modifier),
       isResolved m = true →
       scopeSub (resolvedScope sent terms m) (naiveScope sent m)) ∧
    (∀ (sent : Span) (terms : List Span) (m : Modifier) (e : Entity),
       scopeEmpty (resolvedScope sent terms m) →
       e.span.start < e.span.stop →
       attaches sent terms m e = false) := by
  constructor
  · intro sent terms m hres
    constructor
    · intro iv hiv
      cases hnl : (naiveScope sent m).left with
      | none => simp only [resolvedScope, hnl, Option.map_none'] at hiv; cases hiv
      | some jv =>
        refine ⟨jv, rfl, ?_⟩
        simp only [resolvedScope, hnl, Option.map_some', Option.some.injEq] at hiv
        subst hiv
        exact ⟨foldl_clipLeft_start_ge terms jv, Nat.le_of_eq (foldl_clipLeft_stop terms jv)⟩
    · intro iv hiv
      cases hnr : (naiveScope sent m).right with
      | none => simp only [resolvedScope, hnr, Option.map_none'] at hiv; cases hiv
      | some jv =>
        refine ⟨jv, rfl, ?_⟩
        simp only [resolvedScope, hnr, Option.map_some', Option.some.injEq] at hiv
        subst hiv
        exact ⟨Nat.le_of_eq (foldl_clipRight_start terms jv).symm,
               foldl_clipRight_stop_le terms jv⟩
  · intro sent terms m e hempty hprop
    have hc : scopeContains (resolvedScope sent terms m) e.span = false :=
      scopeContains_eq_false_of_empty _ _ hempty hprop
    simp [attaches, hc]

/-- Concrete instantiation of `truncation_monotonicity`: in Scenario 2
the clipped scope `[3,4)` sits inside the naive scope `[3,9)`. -/
theorem truncation_monotonicity_witness :
    scopeSub (resolvedScope ⟨0, 9⟩ [⟨4, 5⟩] negMod) (naiveScope ⟨0, 9⟩ negMod) :=
  truncation_monotonicity.1 ⟨0, 9⟩ [⟨4, 5⟩] negMod (by decide)

/-- Claim C6: no edge of a resolved result graph ever references a
modifier whose direction is `PSEUDO` or `TERMINATE`; such modifiers get
no naive scope, and their resolved scope contains no span, so they are
never used for attachment. -/
theorem pseudo_terminate_exclusion :
    (∀ (d : Document) (g : ResultGraph) (m : Modifier) (e : Entity) (c : String),
       resolve d = Except.ok g → (m, e, c) ∈ g.edges →
       ¬(m.rule.direction = Direction.pseudo ∨
         m.rule.direction = Direction.terminate)) ∧
    (∀ (sent : Span) (m : Modifier),
       (m.rule.direction = Direction.pseudo ∨
        m.rule.direction = Direction.terminate) →
       naiveScope sent m = ⟨none, none⟩ ∧
       ∀ (terms : List Span) (s : Span),
         scopeContains (resolvedScope sent terms m) s = false) := by
  constructor
  · intro d g m e c hok hmem
    have hg : g = buildGraph d := by
      unfold resolve at hok
      split at hok
      · exact (Except.ok.inj hok).symm
      · cases hok
    subst hg
    simp only [buildGraph, List.mem_flatMap] at hmem
    rcases hmem with ⟨snt, hsnt, hmem⟩
    simp only [sentenceEdges, List.mem_flatMap, List.mem_map, List.mem_filter] at hmem
    rcases hmem with ⟨e', he', m', ⟨hm'mem, hatt⟩, heq⟩
    have hm'eq : m' = m := congrArg Prod.fst heq
    subst hm'eq
    simp only [attaches, Bool.and_eq_true, isResolved, Bool.not_eq_true',
      decide_eq_false_iff_not] at hatt
    rintro (h | h)
    · exact hatt.1.1.1.1.1 h
    · exact hatt.1.1.1.1.2 h
  · intro sent m h
    have hns : naiveScope sent m = ⟨none, none⟩ := by
      rcases h with h | h <;> simp [naiveScope, h]
    refine ⟨hns, ?_⟩
    intro terms s
    simp [resolvedScope, scopeContains, hns]

/-- Concrete instantiation of `pseudo_terminate_exclusion` on the
Scenario 1 document and its single recorded edge. -/
theorem pseudo_terminate_exclusion_witness :
    ¬(negMod.rule.direction = Direction.pseudo ∨
      negMod.rule.direction = Direction.terminate) :=
  pseudo_terminate_exclusion.1 scenarioOneDoc (buildGraph scenarioOneDoc)
    negMod pneumoniaEnt "NEGATED_EXISTENCE" rfl (by decide)

/-- Claim C7: `resolve` is a pure, deterministic function of the
sentences, the modifier matches and the target matches of the document:
two documents with equal inputs resolve to equal results, and a repeated
call yields an identical result. -/
theorem resolve_deterministic (d1 d2 : Document)
    (hs : d1.sentences = d2.sentences) (hm : d1.modifiers = d2.modifiers)
    (he : d1.entities = d2.entities) :
    resolve d1 = resolve d2 ∧ resolve d1 = resolve d1 := by
  have hd : d1 = d2 := by
    cases d1
    cases d2
    simp only at hs hm he
    simp [hs, hm, he]
  exact ⟨by rw [hd], rfl⟩

/-- Concrete instantiation of `resolve_deterministic` on the Scenario 1
document. -/
theorem resolve_deterministic_witness :
    resolve scenarioOneDoc = resolve scenarioOneDoc :=
  (resolve_deterministic scenarioOneDoc scenarioOneDoc rfl rfl rfl).2

theorem badScope_iff (ms : Option Int) :
    badScope ms = true ↔ ∃ k : Int, ms = some k ∧ k ≤ 0 := by
  cases ms <;> simp [badScope]

theorem conflictingCats_iff (al : Option (List String)) (ex : List String) :
    conflictingCats al ex = true ↔
      ∃ (cs : List String) (c : String), al = some cs ∧ c ∈ cs ∧ c ∈ ex := by
  cases al <;> simp [conflictingCats, List.any_eq_true]

/-- Claim C8: Rule Set construction fails with `RuleValidationError`
exactly when a rule has an unknown direction tag, a non-positive
`max_scope`, or intersecting allow/exclude category sets; the error is
the only one validation produces, it is never raised during document
processing, and it is fatal only to the offending rule — the other rules
of the same load are still registered. -/
theorem rule_set_load_validation :
    (∀ r : RuleSpec,
       (∃ er, validateRule r = Except.error er) ↔
         (parseDirection r.direction = none ∨
          (∃ k : Int, r.max_scope = some k ∧ k ≤ 0) ∨
          (∃ (cs : List String) (c : String),
             r.allowed_target_categories = some cs ∧ c ∈ cs ∧
             c ∈ r.excluded_target_categories))) ∧
    (∀ (r : RuleSpec) (er : ContextError),
       validateRule r = Except.error er → er = ContextError.ruleValidationError) ∧
    (∀ (rs : List RuleSpec) (r : RuleSpec) (mr : ModifierRule),
       r ∈ rs → validateRule r = Except.ok mr → mr ∈ (load rs).1.rules) ∧
    (∀ d : Document, resolve d ≠ Except.error ContextError.ruleValidationError) := by
  refine ⟨?_, ?_, ?_, ?_⟩
  · intro r
    unfold validateRule
    cases hpd : parseDirection r.direction with
    | none => simp [hpd]
    | some dir =>
      cases hbs : badScope r.max_scope with
      | true =>
        simp only [if_pos]
        constructor
        · intro _
          exact Or.inr (Or.inl ((badScope_iff r.max_scope).mp hbs))
        · intro _
          exact ⟨ContextError.ruleValidationError, rfl⟩
      | false =>
        simp only [Bool.false_eq_true, if_false]
        cases hcc : conflictingCats r.allowed_target_categories
            r.excluded_target_categories with
        | true =>
          simp only [if_pos]
          constructor
          · intro _
            exact Or.inr (Or.inr
              ((conflictingCats_iff r.allowed_target_categories
                  r.excluded_target_categories).mp hcc))
          · intro _
            exact ⟨ContextError.ruleValidationError, rfl⟩
        | false =>
          simp only [Bool.false_eq_true, if_false]
          constructor
          · rintro ⟨er, h⟩
            cases h
          · rintro (h | h | h)
            · exact Option.noConfusion h
            · have hb := (badScope_iff r.max_scope).mpr h
              rw [hbs] at hb
              cases hb
            · have hc := (conflictingCats_iff r.allowed_target_categories
                  r.excluded_target_categories).mpr h
              rw [hcc] at hc
              cases hc
  · intro r er h
    unfold validateRule at h
    cases hpd : parseDirection r.direction <;> rw [hpd] at h <;> dsimp only at h
    · exact (Except.error.inj h).symm
    · cases hbs : badScope r.max_scope <;> rw [hbs] at h
      · rw [if_neg Bool.false_ne_true] at h
        cases hcc : conflictingCats r.allowed_target_categories
            r.excluded_target_categories <;> rw [hcc] at h
        · rw [if_neg Bool.false_ne_true] at h
          cases h
        · rw [if_pos rfl] at h
          exact (Except.error.inj h).symm
      · rw [if_pos rfl] at h
        exact (Except.error.inj h).symm
  · intro rs r mr hmem hok
    simp only [load]
    rw [List.mem_filterMap]
    exact ⟨r, hmem, by rw [hok]; rfl⟩
  · intro d h
    unfold resolve at h
    split at h
    · cases h
    · simp at h

/-- Concrete instantiation of `rule_set_load_validation`: a load
containing a rule with the unknown tag `SIDEWAYS` still registers the
well-formed forward rule. -/
theorem rule_set_load_validation_witness :
    (⟨"NEGATED_EXISTENCE", Direction.forward, none, none, []⟩ : ModifierRule) ∈
      (load [⟨"X", "SIDEWAYS", none, none, []⟩,
             ⟨"NEGATED_EXISTENCE", "FORWARD", none, none, []⟩]).1.rules :=
  rule_set_load_validation.2.2.1
    [⟨"X", "SIDEWAYS", none, none, []⟩, ⟨"NEGATED_EXISTENCE", "FORWARD", none, none, []⟩]
    ⟨"NEGATED_EXISTENCE", "FORWARD", none, none, []⟩
    ⟨"NEGATED_EXISTENCE", Direction.forward, none, none, []⟩
    (by decide) rfl

/-- Claim C9: if any modifier or entity span breaks the span contract —
it lies outside every sentence range or has `start ≥ end` — `resolve`
rejects the document with `SpanContractViolation` (and only then); and
every call either returns a fully resolved graph or fails with that
error, with no partial output. -/
theorem span_contract_violation (d : Document) :
    (resolve d = Except.error ContextError.spanContractViolation ↔
       ((∃ m ∈ d.modifiers, spanValid d.sentences m.span = false) ∨
        (∃ e ∈ d.entities, spanValid d.sentences e.span = false))) ∧
    ((∃ g : ResultGraph, resolve d = Except.ok g) ∨
       resolve d = Except.error ContextError.spanContractViolation) := by
  have hv : docValid d = false ↔
      ((∃ m ∈ d.modifiers, spanValid d.sentences m.span = false) ∨
       (∃ e ∈ d.entities, spanValid d.sentences e.span = false)) := by
    simp only [docValid]
    simp
    constructor
    · intro h
      by_cases ha : ∀ x ∈ d.modifiers, spanValid d.sentences x.span = true
      · exact Or.inr (h ha)
      · push_neg at ha
        rcases ha with ⟨m, hm, hval⟩
        exact Or.inl ⟨m, hm, Bool.eq_false_iff.mpr hval⟩
    · rintro (⟨m, hm, hval⟩ | hb)
      · intro ha
        exact absurd (ha m hm) (by simp [hval])
      · intro _
        exact hb
  constructor
  · rw [← hv]
    unfold resolve
    cases hd : docValid d <;> simp
  · unfold resolve
    cases hd : docValid d <;> simp

/-- Document with a modifier span outside its only sentence, used to
instantiate `span_contract_violation`. -/
def contractBadDoc : Document := ⟨[⟨0, 5⟩], [⟨⟨7, 9⟩, negationRule⟩], []⟩

/-- Concrete instantiation of `span_contract_violation`: a modifier span
outside the sentence makes `resolve` fail. -/
theorem span_contract_violation_witness :
    resolve contractBadDoc = Except.error ContextError.spanContractViolation :=
  (span_contract_violation contractBadDoc).1.mpr
    (Or.inl ⟨⟨⟨7, 9⟩, negationRule⟩, by decide, by decide⟩)

/-- Claim C10: adding rules to a Rule Set produces a new Rule Set by
copy-on-append — the new collection extends the old one and every
existing index still resolves to the same rule, so a Rule Set shared by
reference with documents mid-processing is unaffected by additions. -/
theorem rule_set_copy_on_append (rs : RuleSet) (more : List ModifierRule) :
    (RuleSet.add rs more).rules = rs.rules ++ more ∧
    ∀ i : Nat, i < rs.rules.length → (RuleSet.add rs more).rules[i]? = rs.rules[i]? := by
  refine ⟨rfl, ?_⟩
  intro i hi
  exact List.getElem?_append_left hi

/-- Concrete instantiation of `rule_set_copy_on_append`: index 0 of the
extended set still holds the original negation rule. -/
theorem rule_set_copy_on_append_witness :
    (RuleSet.add ⟨[negationRule]⟩ [famHistRule]).rules[0]? = some negationRule :=
  ((rule_set_copy_on_append ⟨[negationRule]⟩ [famHistRule]).2 0 (by decide)).trans rfl

end MedspacyContext
